import Mathlib

/-!
# Verification of the flask-admin SQLAlchemy model-view core

Shallow embedding of `flask_admin/contrib/sqla/view.py` and
`flask_admin/contrib/sqla/fields.py`, together with the small pieces of
`flask_admin.tools` / `flask_admin.contrib.sqla.tools` that those two files
call (the `tools` module itself is not part of the sources examined; where a
definition comes from the specification rather than from source code, its doc
comment says so explicitly).

Strings are modelled as `List Char`; machine objects that only matter up to
identity (ORM instances, session rows) are modelled as `Nat` identifiers.
-/

set_option autoImplicit false

namespace FlaskAdmin

/-! ## Primary-key encoding (claim C1)

`ModelView.get_pk_value` (view.py 481-492) returns
`tools.iterencode(values)` for a composite primary key and
`tools.escape(value)` for a single one; `ModelView.get_one` (view.py
1290-1305) decodes the opaque identifier with `tools.iterdecode(id)`.
-/

/-- Modelled from the spec: `flask_admin.tools.escape` is not under `src/`.
Per spec §3/§8 a primary-key component is escaped so that the delimiter
character can occur inside a component.  We model the delimiter as `','` and
the escape character as `'.'`: every `'.'` of the component is doubled and
every `','` is preceded by one `'.'`. -/
def escape (s : List Char) : List Char :=
  s.flatMap fun c =>
    if c = '.' then ['.', '.']
    else if c = ',' then ['.', ','] else [c]

/-- Modelled from the spec: `flask_admin.tools.iterencode` is not under
`src/`.  Per spec §3 the encoded primary key is the `','`-joined list of the
escaped components. -/
def iterencode : List (List Char) → List Char
  | [] => []
  | [x] => escape x
  | x :: xs => escape x ++ ',' :: iterencode xs

/-- Modelled from the spec: the scanning loop of
`flask_admin.tools.iterdecode` (not under `src/`).  State: `escaped` flag and
the accumulator of the current component; an unescaped `','` ends a
component, an unescaped `'.'` sets the flag, and any character following the
flag is taken literally. -/
def iterdecodeLoop : Bool → List Char → List Char → List (List Char)
  | _, acc, [] => [acc]
  | false, acc, c :: cs =>
    if c = '.' then iterdecodeLoop true acc cs
    else if c = ',' then acc :: iterdecodeLoop false [] cs
    else iterdecodeLoop false (acc ++ [c]) cs
  | true, acc, c :: cs => iterdecodeLoop false (acc ++ [c]) cs

/-- Modelled from the spec: `flask_admin.tools.iterdecode` (not under
`src/`), the inverse required by spec §3/§8. -/
def iterdecode (value : List Char) : List (List Char) :=
  iterdecodeLoop false [] value

/-- A primary-key value of a model object: either the value of the single
primary-key attribute or the tuple of values of the composite key
(`ModelView._primary_key` is a tuple exactly in the composite case). -/
inductive PKValue where
  | single (v : List Char)
  | composite (vs : List (List Char))
deriving DecidableEq

/-- `ModelView.get_pk_value` (view.py 481-492): composite keys are
`iterencode`d, single keys are `escape`d. -/
def get_pk_value : PKValue → List Char
  | .single v => escape v
  | .composite vs => iterencode vs

/-- The decoding step of `ModelView.get_one` (view.py 1290-1305):
`session.get(self.model, tools.iterdecode(id))`. -/
def get_one_decode (id : List Char) : List (List Char) :=
  iterdecode id

/-! ## Join-path planner (claim C2)

`ModelView._apply_path_joins` (view.py 428-471).  A hop of the path is
either a plain `Table` or a relationship attribute; `aliased(...)` allocates
a fresh alias object, which we model with a counter.  The joins map is a
dictionary keyed by `(inner_join, item)` whose value is the alias allocated
for the hop (`None` for table hops); the query is modelled by the list of
join clauses appended to it, each recording the join flavour, the hop, the
alias passed to `join`/`outerjoin` and the alias the hop chained from
(`last`, `None` for the first hop). -/

/-- A hop of a join path: `isinstance(item, Table)` distinguishes the two
cases in the source. -/
inductive PathItem where
  | table (id : Nat)
  | relation (id : Nat)
deriving DecidableEq

/-- One join clause appended to the query: `fn(item)` / `fn(alias, item)`
when `last is None`, `fn(prop)` / `fn(alias, prop)` otherwise, with
`fn = query.join if inner_join else query.outerjoin`. -/
structure JoinClause where
  innerJoin : Bool
  item : PathItem
  aliasUsed : Option Nat
  chainedFrom : Option Nat
deriving DecidableEq

/-- The query-build-pass state threaded through `_apply_path_joins`: the
join clauses of the query, the joins dictionary, and the supply of fresh
alias identifiers. -/
structure JoinState where
  clauses : List JoinClause
  joins : List ((Bool × PathItem) × Option Nat)
  fresh : Nat
deriving DecidableEq

/-- Dictionary lookup `joins.get(key)` / `key in joins` (first match; keys
are unique because the source only inserts keys that are absent). -/
def joinsLookup (js : List ((Bool × PathItem) × Option Nat))
    (k : Bool × PathItem) : Option (Option Nat) :=
  (js.find? fun e => e.1 = k).map (·.2)

/-- One iteration of the `for item in path` loop of `_apply_path_joins`
(view.py 450-469).  If the key is cached, nothing is appended and `last`
becomes the cached alias; otherwise a fresh alias is allocated for non-table
hops, one join clause is appended, and the key is recorded. -/
def applyPathJoinsStep (innerJoin : Bool) (acc : JoinState × Option Nat)
    (item : PathItem) : JoinState × Option Nat :=
  let st := acc.1
  let key := (innerJoin, item)
  match joinsLookup st.joins key with
  | some cached => (st, cached)
  | none =>
    let (anAlias, fresh') :=
      match item with
      | PathItem.table _ => (none, st.fresh)
      | PathItem.relation _ => (some st.fresh, st.fresh + 1)
    ({ clauses := st.clauses ++ [⟨innerJoin, item, anAlias, acc.2⟩],
       joins := st.joins ++ [(key, anAlias)],
       fresh := fresh' }, anAlias)

/-- `ModelView._apply_path_joins` (view.py 428-471): fold the loop body over
the path, starting from `last = None`; returns the updated query/joins state
and the final `last` alias.  (An absent path is modelled by `[]`, for which
the loop body never runs.) -/
def apply_path_joins (st : JoinState) (path : List PathItem)
    (innerJoin : Bool) : JoinState × Option Nat :=
  path.foldl (applyPathJoinsStep innerJoin) (st, none)

/-! ## Search (claim C3)

`ModelView._apply_search` (view.py 1087-1137).  The searchable fields are
modelled as the fields of a row (all of the base table, i.e. with an empty
join path, as in the claim's example `{name, email}`; the count query
receives exactly the same filter clauses and is not modelled separately).
The external `column.ilike(stmt)` collaborator is embedded as standard
case-insensitive SQL `LIKE` matching, with `'%'` matching any sequence and
`'_'` any single character. -/

/-- Case-insensitive character comparison used by `ILIKE`. -/
def charMatch (p c : Char) : Bool := p.toLower = c.toLower

/-- Case-insensitive SQL `LIKE`: semantics of the external
`sql_cast(column, Unicode).ilike(pattern)` call of `_apply_search`
(view.py 1122).  `'%'` matches any sequence (the pattern rest must match
some suffix), `'_'` matches exactly one character. -/
def likeMatch : List Char → List Char → Bool
  | [], s => s.isEmpty
  | c :: ps, s =>
    if c = '%' then s.tails.any fun s' => likeMatch ps s'
    else
      match s with
      | [] => false
      | d :: s' => (c = '_' || charMatch c d) && likeMatch ps s'

/-- Modelled from the spec: `flask_admin.tools.parse_like_term` is not under
`src/`.  Spec §4.3: a leading `'^'` anchors to prefix match, a leading `'='`
requires exact match, otherwise substring match with implicit wildcards on
both sides. -/
def parse_like_term (t : List Char) : List Char :=
  match t with
  | c :: rest =>
    if c = '^' then rest ++ ['%']
    else if c = '=' then rest
    else '%' :: (t ++ ['%'])
  | [] => '%' :: (t ++ ['%'])

/-- Python's `search.split(" ")` (view.py 1098): split on every single
space character, producing empty strings for leading/trailing/adjacent
spaces. -/
def splitSp : List Char → List (List Char)
  | [] => [[]]
  | c :: rest =>
    if c = ' ' then [] :: splitSp rest
    else
      match splitSp rest with
      | [] => [[c]]
      | t :: ts => (c :: t) :: ts

/-- A row of the listing query: the text values of its searchable fields. -/
structure SRow where
  fields : List (List Char)
deriving DecidableEq

/-- The `or_(*filter_stmt)` clause contributed by one term
(view.py 1106-1132): the term's LIKE pattern matched against any searchable
field. -/
def term_matches (term : List Char) (row : SRow) : Bool :=
  row.fields.any fun f => likeMatch (parse_like_term term) f

/-- `ModelView._apply_search` (view.py 1087-1137): split the search string
on `' '`, and for every non-empty term restrict the query by the
disjunction of per-field LIKE clauses (`query.filter(or_(*filter_stmt))`);
empty terms are skipped (`if not term: continue`). -/
def apply_search (rows : List SRow) (search : List Char) : List SRow :=
  (splitSp search).foldl
    (fun q term => if term.isEmpty then q else q.filter (term_matches term))
    rows

/-- Whitespace characters, for the claim-side semantics that splits "on
whitespace". -/
def wsChar (c : Char) : Bool :=
  c = ' ' || c = '\t' || c = '\n' || c = '\r'

/-- Split on every whitespace character (claim-side notion of splitting the
search string "on whitespace"). -/
def splitAnyWs : List Char → List (List Char)
  | [] => [[]]
  | c :: rest =>
    if wsChar c then [] :: splitAnyWs rest
    else
      match splitAnyWs rest with
      | [] => [[c]]
      | t :: ts => (c :: t) :: ts

/-- Case-insensitive "starts with". -/
def prefCI : List Char → List Char → Bool
  | [], _ => true
  | _ :: _, [] => false
  | c :: t, d :: s => charMatch c d && prefCI t s

/-- Case-insensitive substring containment. -/
def substrCI (t s : List Char) : Bool :=
  s.tails.any fun s' => prefCI t s'

/-- The search semantics in the claim's words (second definition, for
comparison with `apply_search`): split the search string on whitespace;
keep exactly the rows for which every non-empty term is contained
case-insensitively in at least one searchable field. -/
def search_claim_keeps (search : List Char) (row : SRow) : Bool :=
  (splitAnyWs search).all fun term =>
    term.isEmpty || row.fields.any fun f => substrCI term f

/-- The rows the claim says the resulting query keeps. -/
def search_claim_result (rows : List SRow) (search : List Char) : List SRow :=
  rows.filter (search_claim_keeps search)

/-- A term with no special leading anchor (`'^'`/`'='`) and no LIKE
wildcard characters: for these, `%term%` matching is exactly
case-insensitive substring containment. -/
def noAnchor (t : List Char) : Bool :=
  match t with
  | c :: _ => !(c = '^') && !(c = '=')
  | [] => true

def plainTerm (t : List Char) : Bool :=
  noAnchor t && t.all fun c => !(c = '%') && !(c = '_')

/-! ## Form field data and the inline one-to-one field (claims C4, C9)

`InlineModelOneToOneField` (fields.py 379-442).  A WTForms field's `data`
is an arbitrary Python value; the cases relevant to `_looks_empty` are
`None`, strings, booleans, numbers and collections. -/

/-- A form field's `data` value. -/
inductive FieldData where
  | vnone
  | vstr (s : List Char)
  | vbool (b : Bool)
  | vint (n : Int)
  | vlist (l : List Nat)
deriving DecidableEq

/-- `InlineModelOneToOneField._looks_empty` (fields.py 404-415): `None` is
empty, an empty string is empty, everything else (including `False`, `0`
and an empty collection) is not. -/
def _looks_empty : FieldData → Bool
  | .vnone => true
  | .vstr s => s.isEmpty
  | _ => false

/-- `setattr(obj, name, value)` on an object modelled by its attribute
map. -/
def setAttr (attrs : List (String × FieldData)) (name : String)
    (v : FieldData) : List (String × FieldData) :=
  if attrs.any fun p => p.1 = name then
    attrs.map fun p => if p.1 = name then (name, v) else p
  else attrs ++ [(name, v)]

/-- A parent record with its optional one-to-one child, as read by
`getattr(model, field_name, None)` (fields.py 418); a child is its
attribute map. -/
structure ParentObj where
  child : Option (List (String × FieldData))
deriving DecidableEq

/-- The inline one-to-one sub-form: the ordered `(name, data)` pairs of
`self.form._fields` and the child model's primary-key name `self._pk`. -/
structure InlineForm where
  fields : List (String × FieldData)
  pk : String
deriving DecidableEq

/-- The population performed by the field loop of
`InlineModelOneToOneField.populate_obj` (fields.py 427-429): every field
except the primary key writes its data onto the child. -/
def populate_fields (pk : String) (fields : List (String × FieldData))
    (attrs : List (String × FieldData)) : List (String × FieldData) :=
  fields.foldl (fun a nf => if nf.1 ≠ pk then setAttr a nf.1 nf.2 else a) attrs

/-- `InlineModelOneToOneField.populate_obj` (fields.py 417-442).  If the
parent has no child, a fresh one is instantiated (`is_created`); the loop
populates every non-primary-key field **onto that object** (the existing
child when there is one) while and-ing `form_is_empty` with
`_looks_empty(field.data)` for *every* field, the primary key included.
If the form is empty the function returns before `setattr` — discarding a
fresh child, but leaving an existing (already attached and by now
populated) child in place.  Otherwise the child is attached and
`inline_view.on_model_change(form, model, is_created)` runs; the second
component records that hook call. -/
def one_to_one_populate_obj (form : InlineForm) (parent : ParentObj) :
    ParentObj × Option Bool :=
  let pair : List (String × FieldData) × Bool :=
    match parent.child with
    | some c => (c, false)
    | none => ([], true)
  let is_created := pair.2
  let fin := form.fields.foldl
    (fun (st : List (String × FieldData) × Bool) nf =>
      ((if nf.1 ≠ form.pk then setAttr st.1 nf.1 nf.2 else st.1),
        st.2 && _looks_empty nf.2))
    (pair.1, true)
  if fin.2 then
    (if is_created then parent else ⟨some fin.1⟩, none)
  else
    (⟨some fin.1⟩, some is_created)

/-! ## Inline one-to-many list (claim C5)

`InlineModelFormList.populate_obj` (fields.py 350-376).  A child object is
modelled by an identity (`oid`, standing for the Python object reference),
the string form of its primary key as computed by `get_obj_pk`, and its
attribute map.  A submitted sub-form entry carries `get_field_id(field)`
(the string form of `field.get_pk()`, `"None"` for fresh rows),
`self.should_delete(field)`, and the field data it would populate. -/

/-- A child record of the parent's one-to-many collection. -/
structure ChildObj where
  oid : Nat
  pkStr : String
  attrs : List (String × FieldData)
deriving DecidableEq

/-- One submitted inline sub-form entry (`self.entries`). -/
structure InlineEntry where
  fieldId : String
  markDelete : Bool
  payload : List (String × FieldData)
deriving DecidableEq

/-- State mutated by `populate_obj`: the parent's collection (`values`),
the identities deleted from the session, the
`inline_view._on_model_change(field, model, is_created)` invocations in
order, and the supply of fresh object identities. -/
structure ListPopState where
  values : List ChildObj
  sessionDeleted : List Nat
  hooks : List (Nat × Bool)
  nextOid : Nat
deriving DecidableEq

/-- Lookup in `pk_map = dict((get_obj_pk(v, self._pk), v) for v in values)`
(fields.py 357): a Python dict built from a list lets a later duplicate key
win, so the last matching child is returned. -/
def pkLookup (vs : List ChildObj) (k : String) : Option ChildObj :=
  (vs.filter fun v => v.pkStr = k).getLast?

/-- `field.populate_obj(model, None)` (fields.py 374): write every field of
the sub-form onto the child's attribute map. -/
def applyPayload (attrs : List (String × FieldData))
    (payload : List (String × FieldData)) : List (String × FieldData) :=
  payload.foldl (fun a p => setAttr a p.1 p.2) attrs

/-- One iteration of the `for field in self.entries` loop
(fields.py 360-376).  `pk_map` is the snapshot taken before the loop.  An
entry whose id matches an existing child either deletes that child from
the session when marked for deletion (`continue`: no population, no hook)
or updates the object in place (all collection slots holding it see the
mutation); an entry with no match instantiates a fresh child, appends it to
the collection, and only then populates it. -/
def inline_list_step (pk_map : List ChildObj) (st : ListPopState)
    (entry : InlineEntry) : ListPopState :=
  match pkLookup pk_map entry.fieldId with
  | some m0 =>
    if entry.markDelete then
      { st with sessionDeleted := st.sessionDeleted ++ [m0.oid] }
    else
      let m := (st.values.find? fun v => v.oid = m0.oid).getD m0
      let m' := { m with attrs := applyPayload m.attrs entry.payload }
      { st with
        values := st.values.map fun v => if v.oid = m0.oid then m' else v,
        hooks := st.hooks ++ [(m0.oid, false)] }
  | none =>
    let m : ChildObj := ⟨st.nextOid, "", []⟩
    let m' := { m with attrs := applyPayload m.attrs entry.payload }
    { st with
      values := st.values ++ [m'],
      hooks := st.hooks ++ [(st.nextOid, true)],
      nextOid := st.nextOid + 1 }

/-- `InlineModelFormList.populate_obj` (fields.py 350-376): build the
primary-key map from the collection as it stands, then run the loop over
the submitted entries.  (The `values is None` early return is the case of a
parent without the collection attribute and is not modelled.) -/
def inline_list_populate_obj (entries : List InlineEntry)
    (st : ListPopState) : ListPopState :=
  entries.foldl (inline_list_step st.values) st

/-- The children still alive in the unit of work once the pending session
deletions are carried out by the persistence layer. -/
def liveChildren (st : ListPopState) : List ChildObj :=
  st.values.filter fun v => !(st.sessionDeleted.contains v.oid)

/-! ## Mutation orchestrator: create_model (claim C6) -/

/-- Exception classification relevant to `handle_view_exception`:
`sqlalchemy.exc.IntegrityError` versus any other exception. -/
inductive Exc where
  | integrity
  | other
deriving DecidableEq

/-- The borrowed unit of work: rows already committed and the pending
(not yet committed) writes of the session. -/
structure UnitOfWork where
  persisted : List Nat
  pending : List Nat
deriving DecidableEq

/-- `session.add(model)`. -/
def uow_add (s : UnitOfWork) (m : Nat) : UnitOfWork :=
  { s with pending := s.pending ++ [m] }

/-- A successful `session.commit()`. -/
def uow_commit (s : UnitOfWork) : UnitOfWork :=
  { persisted := s.persisted ++ s.pending, pending := [] }

/-- `session.rollback()`: the pending writes are discarded. -/
def uow_rollback (s : UnitOfWork) : UnitOfWork :=
  { s with pending := [] }

/-- What `handle_view_exception` does with an exception. -/
inductive HandleResult where
  | handled (asKnown : Bool)
  | reraise
deriving DecidableEq

/-- `ModelView.handle_view_exception` (view.py 1308-1322): an
`IntegrityError` is re-raised when the host configures
`FLASK_ADMIN_RAISE_ON_INTEGRITY_ERROR` (or the broader
`FLASK_ADMIN_RAISE_ON_VIEW_EXCEPTION`), otherwise an integrity-error flash
message is emitted and `True` is returned.  For any other exception the
base-class implementation runs; that class is not under `src/` and is
modelled from the spec (§7: generic persistence failures are reported and
turned into the failure sentinel): it returns `False`, i.e. "not handled
specially". -/
def handle_view_exception (raiseOnIntegrity : Bool) (e : Exc) : HandleResult :=
  match e with
  | .integrity => if raiseOnIntegrity then .reraise else .handled true
  | .other => .handled false

/-- Result of a `create_model` call: the created model, the failure
sentinel `False`, or a propagated exception. -/
inductive CreateOutcome where
  | created (m : Nat)
  | sentinelFalse
  | raised (e : Exc)
deriving DecidableEq

/-- `ModelView.create_model` (view.py 1339-1367): build the new instance,
populate it from the form, `session.add` it, run the change hook, then
`session.commit()`.  `commitExc` is the exception the commit raises, if
any.  On an exception, `handle_view_exception` classifies it; if that
handler re-raises, the original exception propagates (before any rollback
runs); otherwise — whether or not a specific message was flashed — the
session is rolled back and the failure sentinel `False` is returned. -/
def create_model (raiseOnIntegrity : Bool) (s : UnitOfWork) (m : Nat)
    (commitExc : Option Exc) : CreateOutcome × UnitOfWork :=
  let s1 := uow_add s m
  match commitExc with
  | none => (.created m, uow_commit s1)
  | some e =>
    match handle_view_exception raiseOnIntegrity e with
    | .reraise => (.raised e, s1)
    | .handled _ => (.sentinelFalse, uow_rollback s1)

/-! ## Bulk delete (claim C7) -/

/-- Observable persistence events of the delete paths. -/
inductive Ev where
  | bulkDelete (n : Nat)
  | preHook (id : Nat)
  | flushEv
  | deleteRow (id : Nat)
  | commitEv
  | rollbackEv
  | postHook (id : Nat)
deriving DecidableEq

/-- `ModelView.delete_model` (view.py 1400-1426) on one row: the
`on_model_delete` hook, `session.flush()`, `session.delete(model)`,
`session.commit()`, then `after_model_delete`.  When the row's commit fails
(`commitFails`), the exception is handled, the session rolled back, and
`False` is returned; the post-delete hook does not run. -/
def delete_model (commitFails : Nat → Bool) (r : Nat) : Bool × List Ev :=
  if commitFails r then
    (false, [.preHook r, .flushEv, .deleteRow r, .rollbackEv])
  else
    (true, [.preHook r, .flushEv, .deleteRow r, .commitEv, .postHook r])

/-- The `for m in query.all()` loop of `action_delete` (view.py 1452-1456):
delete row by row through `delete_model`, counting only the successes. -/
def delete_loop (commitFails : Nat → Bool) : List Nat → Nat × List Ev
  | [] => (0, [])
  | r :: rows =>
    let d := delete_model commitFails r
    let l := delete_loop commitFails rows
    ((if d.1 then 1 else 0) + l.1, d.2 ++ l.2)

/-- `ModelView.action_delete` (view.py 1441-1475): with `fast_mass_delete`
one aggregate `DELETE` statement is issued
(`query.delete(synchronize_session=False)`, whose row count is the number
of targeted rows); otherwise the targeted rows go one by one through the
single-row `delete_model` path.  Either way `session.commit()` runs at the
end and the count is reported. -/
def action_delete (fast : Bool) (commitFails : Nat → Bool)
    (rows : List Nat) : Nat × List Ev :=
  if fast then (rows.length, [.bulkDelete rows.length, .commitEv])
  else
    let l := delete_loop commitFails rows
    (l.1, l.2 ++ [.commitEv])

/-! ## Relationship scaffolding (claim C8)

`ModelView.scaffold_list_columns` (view.py 494-535) and
`ModelView.scaffold_auto_joins` (view.py 935-966), over the model's
property iterator. -/

/-- Relationship cardinality: `p.direction.name`. -/
inductive Direction where
  | manytoone
  | onetomany
  | manytomany
deriving DecidableEq

/-- A physical column of a column property: whether it belongs to the base
table, has foreign keys, and is part of the primary key. -/
structure ColDesc where
  belongsToBase : Bool
  foreign : Bool
  primary : Bool
deriving DecidableEq

/-- A property of the model iterator: a relationship (has `direction`) with
its key, cardinality, whether it points back to the same model and whether
target and source share the same bind; or a column property (has
`columns`, at least one). -/
inductive ModelProp where
  | rel (key : String) (dir : Direction) (selfReferential : Bool)
      (sameBind : Bool)
  | col (key : String) (first : ColDesc) (more : List ColDesc)
deriving DecidableEq

/-- The view configuration consumed by the two scaffolding functions. -/
structure ListConfig where
  column_display_all_relations : Bool
  column_display_pk : Bool
  column_auto_select_related : Bool
deriving DecidableEq

/-- Modelled from the spec: `tools.filter_foreign_columns(base_table,
columns)` is not under `src/`; per spec §4.1 a multi-column property is
reduced to the columns that belong to the base table. -/
def filter_foreign_columns (cols : List ColDesc) : List ColDesc :=
  cols.filter fun c => c.belongsToBase

/-- The decision `scaffold_list_columns` takes for one property
(view.py 500-533): a relationship key is kept iff
`column_display_all_relations or direction == "MANYTOONE"`; a multi-column
property is reduced by `filter_foreign_columns` and skipped unless exactly
one column remains; a column with foreign keys is skipped, and a
primary-key column is skipped unless `column_display_pk`. -/
def listColumnChoice (cfg : ListConfig) : ModelProp → Option String
  | ModelProp.rel k dir _ _ =>
    if cfg.column_display_all_relations || dir = Direction.manytoone then
      some k
    else none
  | ModelProp.col k c more =>
    let colOpt : Option ColDesc :=
      if more.isEmpty then some c
      else
        match filter_foreign_columns (c :: more) with
        | [f] => some f
        | _ => none
    match colOpt with
    | none => none
    | some column =>
      if column.foreign then none
      else if !cfg.column_display_pk && column.primary then none
      else some k

/-- `ModelView.scaffold_list_columns` (view.py 494-535): the keys the loop
appends, in property order. -/
def scaffold_list_columns (cfg : ListConfig) (props : List ModelProp) :
    List String :=
  props.filterMap (listColumnChoice cfg)

/-- The key of a property. -/
def propKey : ModelProp → String
  | ModelProp.rel k _ _ _ => k
  | ModelProp.col k _ _ => k

/-- The `relations` set of `scaffold_auto_joins` (view.py 943-958): a
relationship key qualifies unless the relation points back to the same
model or crosses binds, and only for the `MANYTOONE` and `MANYTOMANY`
directions. -/
def autoJoinEligible : ModelProp → Option String
  | ModelProp.rel k dir selfRef sameBind =>
    if selfRef then none
    else if !sameBind then none
    else if dir = Direction.manytoone || dir = Direction.manytomany then
      some k
    else none
  | ModelProp.col _ _ _ => none

/-- `ModelView.scaffold_auto_joins` (view.py 935-966): nothing unless
`column_auto_select_related`; otherwise the displayed columns
(`self._list_columns`, passed here as `list_columns`) that are in the
`relations` set, in display order. -/
def scaffold_auto_joins (cfg : ListConfig) (props : List ModelProp)
    (list_columns : List String) : List String :=
  if !cfg.column_auto_select_related then []
  else
    let relations := props.filterMap autoJoinEligible
    list_columns.filter fun c => relations.contains c

/-! ## QuerySelectMultipleField (claim C10)

`QuerySelectMultipleField._get_data` / `pre_validate`
(fields.py 178-215). -/

/-- The field state: the `(str(pk), obj)` pairs produced by
`_get_object_list()` and the submitted value set
(`process_formdata`: `set(valuelist)`), modelled as a duplicate-free
list. -/
structure QSMField where
  objectList : List (String × Nat)
  formdata : List String
deriving DecidableEq

/-- The scan of `QuerySelectMultipleField._get_data` (fields.py 178-191):
walk the object list, stopping early once the remaining formdata set is
empty; a matching pk is removed from the set and its object appended to
`data`.  Returns the leftover formdata and the collected data. -/
def qsm_loop : List String → List (String × Nat) → List String × List Nat
  | fd, [] => (fd, [])
  | fd, (pk, obj) :: rest =>
    if fd.isEmpty then (fd, [])
    else if pk ∈ fd then
      let r := qsm_loop (fd.erase pk) rest
      (r.1, obj :: r.2)
    else qsm_loop fd rest

/-- `_get_data` (fields.py 178-191): the `data` list together with the
`_invalid_formdata` flag, which is set exactly when submitted values are
left unmatched after the scan. -/
def qsm_get_data (f : QSMField) : List Nat × Bool :=
  let r := qsm_loop f.formdata f.objectList
  (r.2, !r.1.isEmpty)

/-- `pre_validate` (fields.py 208-215): raises
`ValidationError("Not a valid choice")` — modelled as returning `true` —
iff the formdata was flagged invalid, or (the data being non-empty) some
object of `data` is not among the query's objects. -/
def qsm_pre_validate (invalid : Bool) (data objs : List Nat) : Bool :=
  if invalid then true
  else if !data.isEmpty then data.any fun v => !objs.contains v
  else false

end FlaskAdmin

/-! ## Theorems for claim C1 -/

namespace FlaskAdmin

theorem iterdecodeLoop_escape_append (x : List Char) :
    ∀ (acc rest : List Char),
      iterdecodeLoop false acc (escape x ++ rest) =
        match rest with
        | [] => iterdecodeLoop false (acc ++ x) []
        | _ => iterdecodeLoop false (acc ++ x) rest := by
  induction x with
  | nil =>
    intro acc rest
    cases rest <;> simp [escape, iterdecodeLoop]
  | cons c cs ih =>
    intro acc rest
    by_cases hc : c = '.'
    · subst hc
      have h1 : escape ('.' :: cs) = '.' :: '.' :: escape cs := by
        simp [escape]
      rw [h1]
      simp only [List.cons_append, iterdecodeLoop]
      have := ih (acc ++ ['.']) rest
      simpa using this
    · by_cases hc2 : c = ','
      · subst hc2
        have h1 : escape (',' :: cs) = '.' :: ',' :: escape cs := by
          simp [escape]
        rw [h1]
        simp only [List.cons_append, iterdecodeLoop]
        have := ih (acc ++ [',']) rest
        simpa using this
      · have h1 : escape (c :: cs) = c :: escape cs := by
          simp [escape, hc, hc2]
        rw [h1]
        simp only [List.cons_append, iterdecodeLoop, if_neg hc, if_neg hc2]
        have := ih (acc ++ [c]) rest
        simpa using this

theorem iterdecodeLoop_iterencode (xs : List (List Char)) (hne : xs ≠ []) :
    iterdecodeLoop false [] (iterencode xs) = xs := by
  induction xs with
  | nil => exact absurd rfl hne
  | cons x xs ih =>
    cases xs with
    | nil =>
      have := iterdecodeLoop_escape_append x [] []
      simpa [iterencode, iterdecodeLoop] using this
    | cons y ys =>
      have henc : iterencode (x :: y :: ys) = escape x ++ ',' :: iterencode (y :: ys) := rfl
      rw [henc]
      have h1 := iterdecodeLoop_escape_append x [] (',' :: iterencode (y :: ys))
      simp only [List.nil_append] at h1
      rw [h1]
      have h2 : iterdecodeLoop false x (',' :: iterencode (y :: ys)) =
          x :: iterdecodeLoop false [] (iterencode (y :: ys)) := by
        simp [iterdecodeLoop]
      rw [h2, ih (by simp)]

/-- C1.  Primary-key encode/decode round-trips: for every composite
primary-key tuple, `get_one`'s `iterdecode` applied to the opaque identifier
produced by `get_pk_value` yields the original components back (in
particular when components contain the delimiter `','` or the escape
character `'.'`), and for a single primary key the decoded tuple is the
one-element tuple holding the original value, which is what the persistence
layer's `get`-by-identity consumes. -/
theorem c1_pk_roundtrip (vs : List (List Char)) (v : List Char)
    (hvs : vs ≠ []) :
    get_one_decode (get_pk_value (.composite vs)) = vs ∧
    get_one_decode (get_pk_value (.single v)) = [v] := by
  constructor
  · simpa [get_one_decode, get_pk_value, iterdecode] using
      iterdecodeLoop_iterencode vs hvs
  · have := iterdecodeLoop_escape_append v [] []
    simpa [get_one_decode, get_pk_value, iterdecode, iterencode,
      iterdecodeLoop] using this

/-- Witness for C1 at a concrete composite key whose components contain the
delimiter and the escape character, and a concrete single key. -/
theorem c1_pk_roundtrip_witness :
    get_one_decode (get_pk_value (.composite [['a', ',', 'b'], ['c', '.']])) =
        [['a', ',', 'b'], ['c', '.']] ∧
    get_one_decode (get_pk_value (.single ['x', ',', 'y'])) = [['x', ',', 'y']] :=
  c1_pk_roundtrip [['a', ',', 'b'], ['c', '.']] ['x', ',', 'y'] (by decide)

/-! ## Theorems for claim C2 -/

theorem joinsLookup_append_some {js : List ((Bool × PathItem) × Option Nat)}
    (ext : List ((Bool × PathItem) × Option Nat)) {k : Bool × PathItem}
    {v : Option Nat} (h : joinsLookup js k = some v) :
    joinsLookup (js ++ ext) k = some v := by
  induction js with
  | nil => simp [joinsLookup] at h
  | cons e js ih =>
    by_cases he : e.1 = k
    · simp [joinsLookup, List.find?, he] at h ⊢
      exact h
    · rw [joinsLookup] at h ⊢
      rw [List.cons_append]
      rw [List.find?_cons_of_neg _ (by simpa using he)] at h ⊢
      exact ih h

theorem joinsLookup_append_self {js : List ((Bool × PathItem) × Option Nat)}
    {k : Bool × PathItem} (v : Option Nat) (h : joinsLookup js k = none) :
    joinsLookup (js ++ [(k, v)]) k = some v := by
  induction js with
  | nil => simp [joinsLookup, List.find?]
  | cons e js ih =>
    by_cases he : e.1 = k
    · simp [joinsLookup, List.find?, he] at h
    · rw [joinsLookup] at h ⊢
      rw [List.cons_append]
      rw [List.find?_cons_of_neg _ (by simpa using he)] at h ⊢
      exact ih h

theorem applyPathJoinsStep_cached (b : Bool) (acc : JoinState × Option Nat)
    (item : PathItem) (v : Option Nat)
    (h : joinsLookup acc.1.joins (b, item) = some v) :
    applyPathJoinsStep b acc item = (acc.1, v) := by
  simp [applyPathJoinsStep, h]

theorem applyPathJoinsStep_joins_extend (b : Bool) (acc : JoinState × Option Nat)
    (item : PathItem) :
    ∃ ext, (applyPathJoinsStep b acc item).1.joins = acc.1.joins ++ ext := by
  cases h : joinsLookup acc.1.joins (b, item) with
  | some cached => exact ⟨[], by simp [applyPathJoinsStep, h]⟩
  | none =>
    cases item with
    | table tid =>
      exact ⟨[((b, PathItem.table tid), none)], by simp [applyPathJoinsStep, h]⟩
    | relation rid =>
      exact ⟨[((b, PathItem.relation rid), some acc.1.fresh)],
        by simp [applyPathJoinsStep, h]⟩

theorem apply_path_joins_lookup_mono (b : Bool) (path : List PathItem) :
    ∀ (acc : JoinState × Option Nat) (k : Bool × PathItem) (v : Option Nat),
      joinsLookup acc.1.joins k = some v →
      joinsLookup (path.foldl (applyPathJoinsStep b) acc).1.joins k = some v := by
  induction path with
  | nil => intro acc k v h; simpa using h
  | cons it rest ih =>
    intro acc k v h
    rw [List.foldl_cons]
    apply ih
    obtain ⟨ext, hext⟩ := applyPathJoinsStep_joins_extend b acc it
    rw [hext]
    exact joinsLookup_append_some ext h

theorem applyPathJoinsStep_lookup_self (b : Bool) (acc : JoinState × Option Nat)
    (item : PathItem) :
    joinsLookup (applyPathJoinsStep b acc item).1.joins (b, item) =
      some (applyPathJoinsStep b acc item).2 := by
  cases h : joinsLookup acc.1.joins (b, item) with
  | some cached => simp [applyPathJoinsStep, h]
  | none =>
    cases item <;>
      simpa [applyPathJoinsStep, h] using joinsLookup_append_self _ h

theorem apply_path_joins_foldl_twice (b : Bool) (path : List PathItem) :
    ∀ (st : JoinState) (l l' : Option Nat),
      List.foldl (applyPathJoinsStep b)
          ((List.foldl (applyPathJoinsStep b) (st, l) path).1, l') path =
        ((List.foldl (applyPathJoinsStep b) (st, l) path).1,
          if path.isEmpty then l'
          else (List.foldl (applyPathJoinsStep b) (st, l) path).2) := by
  induction path with
  | nil => intro st l l'; simp
  | cons it rest ih =>
    intro st l l'
    have hrec : joinsLookup
        (List.foldl (applyPathJoinsStep b)
          (applyPathJoinsStep b (st, l) it) rest).1.joins (b, it) =
        some (applyPathJoinsStep b (st, l) it).2 :=
      apply_path_joins_lookup_mono b rest _ _ _
        (applyPathJoinsStep_lookup_self b (st, l) it)
    rw [List.foldl_cons, List.foldl_cons]
    rw [applyPathJoinsStep_cached b
      ((List.foldl (applyPathJoinsStep b)
        (applyPathJoinsStep b (st, l) it) rest).1, l') it
      ((applyPathJoinsStep b (st, l) it).2) hrec]
    have hih := ih (applyPathJoinsStep b (st, l) it).1
      (applyPathJoinsStep b (st, l) it).2 (applyPathJoinsStep b (st, l) it).2
    rw [Prod.mk.eta] at hih
    rw [hih]
    cases rest with
    | nil => simp
    | cons y ys => simp

/-- C2.  Join deduplication in `_apply_path_joins`: a hop whose
`(inner_join, item)` key is already in the joins map reuses the cached alias
and appends no join clause; re-applying a whole path a second time in the
same query-build pass leaves the query, the joins map and the alias supply
unchanged and returns the same final alias; a hop absent from the map
appends exactly one join clause, allocating a fresh alias for relation
(non-`Table`) hops and no alias for `Table` hops. -/
theorem c2_join_dedup (st : JoinState) (path : List PathItem) (b : Bool)
    (item : PathItem) (l : Option Nat) (cached : Option Nat) (tid rid : Nat)
    (hcached : joinsLookup st.joins (b, item) = some cached)
    (htab : joinsLookup st.joins (b, PathItem.table tid) = none)
    (hrel : joinsLookup st.joins (b, PathItem.relation rid) = none) :
    applyPathJoinsStep b (st, l) item = (st, cached) ∧
    apply_path_joins (apply_path_joins st path b).1 path b =
      apply_path_joins st path b ∧
    applyPathJoinsStep b (st, l) (PathItem.table tid) =
      ({ clauses := st.clauses ++ [⟨b, PathItem.table tid, none, l⟩],
         joins := st.joins ++ [((b, PathItem.table tid), none)],
         fresh := st.fresh }, none) ∧
    applyPathJoinsStep b (st, l) (PathItem.relation rid) =
      ({ clauses := st.clauses ++ [⟨b, PathItem.relation rid, some st.fresh, l⟩],
         joins := st.joins ++ [((b, PathItem.relation rid), some st.fresh)],
         fresh := st.fresh + 1 }, some st.fresh) := by
  refine ⟨?_, ?_, ?_, ?_⟩
  · simp [applyPathJoinsStep, hcached]
  · have := apply_path_joins_foldl_twice b path st none none
    unfold apply_path_joins
    rw [this]
    cases hp : path with
    | nil => simp
    | cons y ys => simp
  · simp [applyPathJoinsStep, htab]
  · simp [applyPathJoinsStep, hrel]

/-- Witness for C2: a concrete joins map caching `(outer, relation 0)` with
alias `5`, and hops `table 7` / `relation 1` absent from the map. -/
theorem c2_join_dedup_witness :
    applyPathJoinsStep false
      (⟨[], [((false, PathItem.relation 0), some 5)], 6⟩, none)
      (PathItem.relation 0) =
      (⟨[], [((false, PathItem.relation 0), some 5)], 6⟩, some 5) ∧
    apply_path_joins
      (apply_path_joins ⟨[], [((false, PathItem.relation 0), some 5)], 6⟩
        [PathItem.relation 0, PathItem.relation 1] false).1
      [PathItem.relation 0, PathItem.relation 1] false =
      apply_path_joins ⟨[], [((false, PathItem.relation 0), some 5)], 6⟩
        [PathItem.relation 0, PathItem.relation 1] false ∧
    applyPathJoinsStep false
      (⟨[], [((false, PathItem.relation 0), some 5)], 6⟩, none)
      (PathItem.table 7) =
      (⟨[⟨false, PathItem.table 7, none, none⟩],
        [((false, PathItem.relation 0), some 5),
          ((false, PathItem.table 7), none)], 6⟩, none) ∧
    applyPathJoinsStep false
      (⟨[], [((false, PathItem.relation 0), some 5)], 6⟩, none)
      (PathItem.relation 1) =
      (⟨[⟨false, PathItem.relation 1, some 6, none⟩],
        [((false, PathItem.relation 0), some 5),
          ((false, PathItem.relation 1), some 6)], 7⟩, some 6) := by
  have h := c2_join_dedup ⟨[], [((false, PathItem.relation 0), some 5)], 6⟩
    [PathItem.relation 0, PathItem.relation 1] false (PathItem.relation 0)
    none (some 5) 7 1 (by decide) (by decide) (by decide)
  simpa using h

/-! ## Theorems for claim C3 -/

theorem apply_search_foldl (terms : List (List Char)) :
    ∀ rows : List SRow,
      terms.foldl
          (fun q term => if term.isEmpty then q else q.filter (term_matches term))
          rows =
        rows.filter fun r => terms.all fun t => t.isEmpty || term_matches t r := by
  induction terms with
  | nil => intro rows; simp
  | cons t ts ih =>
    intro rows
    rw [List.foldl_cons]
    by_cases ht : t.isEmpty
    · rw [if_pos ht, ih]
      refine List.filter_congr fun r _ => ?_
      simp [ht]
    · rw [if_neg ht, ih, List.filter_filter]
      refine List.filter_congr fun r _ => ?_
      simp [ht, Bool.and_comm]

theorem likeMatch_append_pct (t : List Char) (h1 : '%' ∉ t) (h2 : '_' ∉ t) :
    ∀ s : List Char, likeMatch (t ++ ['%']) s = prefCI t s := by
  induction t with
  | nil =>
    intro s
    have hmem : ([] : List Char) ∈ s.tails := by
      rw [List.mem_tails]
      exact List.nil_suffix
    show likeMatch ['%'] s = prefCI [] s
    rw [show likeMatch ['%'] s = s.tails.any fun s' => likeMatch [] s' from rfl]
    rw [show prefCI [] s = true from rfl]
    rw [List.any_eq_true]
    exact ⟨[], hmem, rfl⟩
  | cons c cs ih =>
    intro s
    have hc1 : c ≠ '%' := fun hc => h1 (hc ▸ List.mem_cons_self c cs)
    have hc2 : c ≠ '_' := fun hc => h2 (hc ▸ List.mem_cons_self c cs)
    have h1' : '%' ∉ cs := fun hm => h1 (List.mem_cons_of_mem c hm)
    have h2' : '_' ∉ cs := fun hm => h2 (List.mem_cons_of_mem c hm)
    cases s with
    | nil => simp [likeMatch, prefCI, hc1]
    | cons d s' => simp [likeMatch, prefCI, hc1, hc2, ih h1' h2' s']

theorem likeMatch_pct_pct (t : List Char) (h1 : '%' ∉ t) (h2 : '_' ∉ t)
    (s : List Char) :
    likeMatch ('%' :: (t ++ ['%'])) s = substrCI t s := by
  have hfun : (fun s' => likeMatch (t ++ ['%']) s') = fun s' => prefCI t s' :=
    funext fun s' => likeMatch_append_pct t h1 h2 s'
  show (s.tails.any fun s' => likeMatch (t ++ ['%']) s') = substrCI t s
  rw [hfun]
  rfl

theorem plainTerm_no_wild {t : List Char} (h : plainTerm t = true) :
    '%' ∉ t ∧ '_' ∉ t := by
  rw [plainTerm, Bool.and_eq_true] at h
  obtain ⟨-, hw⟩ := h
  rw [List.all_eq_true] at hw
  constructor
  · intro hm
    have := hw _ hm
    simp at this
  · intro hm
    have := hw _ hm
    simp at this

theorem parse_like_term_plain (t : List Char) (h : plainTerm t = true) :
    parse_like_term t = '%' :: (t ++ ['%']) := by
  cases t with
  | nil => rfl
  | cons c cs =>
    by_cases h1 : c = '^'
    · subst h1
      simp [plainTerm, noAnchor] at h
    · by_cases h2 : c = '='
      · subst h2
        simp [plainTerm, noAnchor] at h
      · simp [parse_like_term, h1, h2]

/-- C3 (amended).  `_apply_search` splits the search string on the space
character (not on arbitrary whitespace), and the resulting query keeps
exactly the rows for which every non-empty term's LIKE clause matches at
least one searchable field (conjunction over terms, disjunction over
fields); for terms without a leading `'^'`/`'='` anchor and without LIKE
wildcard characters, the per-term clause is exactly case-insensitive
substring containment, as in the claim's `"abc def"` example. -/
theorem c3_search_semantics :
    (∀ (rows : List SRow) (search : List Char),
      apply_search rows search =
        rows.filter fun r =>
          (splitSp search).all fun t => t.isEmpty || term_matches t r) ∧
    (∀ (t : List Char) (r : SRow), plainTerm t = true →
      term_matches t r = r.fields.any fun f => substrCI t f) := by
  constructor
  · intro rows search
    exact apply_search_foldl (splitSp search) rows
  · intro t r h
    obtain ⟨hw1, hw2⟩ := plainTerm_no_wild h
    unfold term_matches
    rw [parse_like_term_plain t h]
    have hfun : (fun f => likeMatch ('%' :: (t ++ ['%'])) f) =
        fun f => substrCI t f :=
      funext fun f => likeMatch_pct_pct t hw1 hw2 f
    rw [hfun]

/-- Witness for C3 at a concrete search string and row set. -/
theorem c3_search_semantics_witness :
    apply_search [⟨[['a', 'b']]⟩] ['a', ' ', 'b'] =
      List.filter
        (fun r => (splitSp ['a', ' ', 'b']).all fun t =>
          t.isEmpty || term_matches t r)
        [⟨[['a', 'b']]⟩] ∧
    term_matches ['b'] ⟨[['A', 'b']]⟩ =
      List.any [['A', 'b']] fun f => substrCI ['b'] f :=
  ⟨c3_search_semantics.1 [⟨[['a', 'b']]⟩] ['a', ' ', 'b'],
   c3_search_semantics.2 ['b'] ⟨[['A', 'b']]⟩ (by decide)⟩

/-- Counterexample to C3 as stated: the source splits the search string on
the space character only (`search.split(" ")`, view.py 1098), not on
whitespace.  For the search string `"a<TAB>b"` and a single row whose field
is `"ab"`, the code treats the whole string as one term and filters the row
out, while the claim's split-on-whitespace semantics keeps it. -/
theorem c3_counterexample :
    apply_search [⟨[['a', 'b']]⟩] ['a', '\t', 'b'] = [] ∧
    search_claim_result [⟨[['a', 'b']]⟩] ['a', '\t', 'b'] = [⟨[['a', 'b']]⟩] ∧
    apply_search [⟨[['a', 'b']]⟩] ['a', '\t', 'b'] ≠
      search_claim_result [⟨[['a', 'b']]⟩] ['a', '\t', 'b'] := by
  refine ⟨by decide, by decide, by decide⟩

/-! ## Theorems for claims C4 and C9 -/

theorem one_to_one_foldl_split (pk : String)
    (fields : List (String × FieldData)) :
    ∀ (a : List (String × FieldData)) (e : Bool),
      fields.foldl
          (fun (st : List (String × FieldData) × Bool) nf =>
            ((if nf.1 ≠ pk then setAttr st.1 nf.1 nf.2 else st.1),
              st.2 && _looks_empty nf.2))
          (a, e) =
        (populate_fields pk fields a,
          e && fields.all fun nf => _looks_empty nf.2) := by
  induction fields with
  | nil => intro a e; simp [populate_fields]
  | cons f fs ih =>
    intro a e
    rw [List.foldl_cons, ih]
    simp [populate_fields, Bool.and_assoc]

/-- C4 (amended).  Blank one-to-one inline sub-form: when the parent has no
existing child and every form field's data reads as empty (the emptiness
check covers every field of the form, the primary-key field included), no
new child is attached to the parent and no `on_model_change` hook runs;
when the parent already has an attached child and the same all-blank form
is submitted, the child is not deleted — it stays attached — but its
non-primary-key fields have been overwritten with the submitted blank
values, because the loop populates the existing child before the emptiness
check short-circuits. -/
theorem c4_one_to_one_blank (form : InlineForm)
    (c : List (String × FieldData))
    (hempty : ∀ nf ∈ form.fields, _looks_empty nf.2 = true) :
    one_to_one_populate_obj form ⟨none⟩ = (⟨none⟩, none) ∧
    one_to_one_populate_obj form ⟨some c⟩ =
      (⟨some (populate_fields form.pk form.fields c)⟩, none) := by
  have hall : (form.fields.all fun nf => _looks_empty nf.2) = true :=
    List.all_eq_true.mpr hempty
  constructor
  · show (let pair : List (String × FieldData) × Bool := ([], true)
      let is_created := pair.2
      let fin := form.fields.foldl
        (fun (st : List (String × FieldData) × Bool) nf =>
          ((if nf.1 ≠ form.pk then setAttr st.1 nf.1 nf.2 else st.1),
            st.2 && _looks_empty nf.2)) (pair.1, true)
      if fin.2 then (if is_created then (⟨none⟩ : ParentObj) else ⟨some fin.1⟩, none)
      else (⟨some fin.1⟩, some is_created)) = ((⟨none⟩ : ParentObj), none)
    simp only [one_to_one_foldl_split, hall, Bool.and_true, if_pos]
  · show (let pair : List (String × FieldData) × Bool := (c, false)
      let is_created := pair.2
      let fin := form.fields.foldl
        (fun (st : List (String × FieldData) × Bool) nf =>
          ((if nf.1 ≠ form.pk then setAttr st.1 nf.1 nf.2 else st.1),
            st.2 && _looks_empty nf.2)) (pair.1, true)
      if fin.2 then (if is_created then (⟨some c⟩ : ParentObj) else ⟨some fin.1⟩, none)
      else (⟨some fin.1⟩, some is_created)) =
      ((⟨some (populate_fields form.pk form.fields c)⟩ : ParentObj), none)
    simp only [one_to_one_foldl_split, hall, Bool.and_true, if_pos]
    simp

/-- Witness for C4 at a concrete blank form (`id` primary-key field plus a
blank `name` field) and a concrete existing child. -/
theorem c4_one_to_one_blank_witness :
    one_to_one_populate_obj
        ⟨[("id", FieldData.vnone), ("name", FieldData.vstr [])], "id"⟩
        ⟨none⟩ = (⟨none⟩, none) ∧
    one_to_one_populate_obj
        ⟨[("id", FieldData.vnone), ("name", FieldData.vstr [])], "id"⟩
        ⟨some [("name", FieldData.vstr ['x'])]⟩ =
      (⟨some (populate_fields "id"
          [("id", FieldData.vnone), ("name", FieldData.vstr [])]
          [("name", FieldData.vstr ['x'])])⟩, none) :=
  c4_one_to_one_blank
    ⟨[("id", FieldData.vnone), ("name", FieldData.vstr [])], "id"⟩
    [("name", FieldData.vstr ['x'])] (by decide)

/-- Counterexample to C4 as stated: for a parent whose existing child has
`name = "x"` and a blank submitted form, `populate_obj` leaves the child
attached but does **not** leave it unchanged — its `name` field has been
overwritten with the blank value before the emptiness check returns. -/
theorem c4_counterexample :
    (one_to_one_populate_obj
        ⟨[("id", FieldData.vnone), ("name", FieldData.vstr [])], "id"⟩
        ⟨some [("name", FieldData.vstr ['x'])]⟩).1 ≠
      ⟨some [("name", FieldData.vstr ['x'])]⟩ := by
  decide

/-- C9.  A field value counts as empty exactly when it is `None` or the
empty string; every other value — `False`, `0`, an empty collection —
counts as filled, so a freshly instantiated child whose only non-blank
field holds boolean `False` is attached to the parent (with the
creation hook fired) rather than discarded. -/
theorem c9_looks_empty :
    (∀ v : FieldData,
      _looks_empty v = true ↔ v = FieldData.vnone ∨ v = FieldData.vstr []) ∧
    _looks_empty (FieldData.vbool false) = false ∧
    _looks_empty (FieldData.vint 0) = false ∧
    _looks_empty (FieldData.vlist []) = false ∧
    one_to_one_populate_obj
        ⟨[("id", FieldData.vnone), ("flag", FieldData.vbool false)], "id"⟩
        ⟨none⟩ =
      (⟨some [("flag", FieldData.vbool false)]⟩, some true) := by
  refine ⟨?_, by decide, by decide, by decide, by decide⟩
  intro v
  cases v <;> simp [_looks_empty, List.isEmpty_iff]

/-! ## Theorems for claim C5 -/

/-- C5.  One-to-many inline list submission: an entry matching an existing
child that is marked for deletion only registers the session deletion
(short-circuit — the collection, the hook log and the child itself are
untouched); a matching unmarked entry updates the matched child in place
and fires the change hook with `is_created = False`; a non-matching entry
appends a fresh child to the collection before populating it and fires the
hook with `is_created = True`.  In the claim's scenario — existing children
`A`, `B`; submission `{A edited, new C}` with `B` marked deleted — the
collection ends as `[A', B, C]` with `B`'s deletion pending in the session,
so the children remaining in the unit of work are exactly `{A', C}`. -/
theorem c5_inline_list (pk_map : List ChildObj) (st : ListPopState)
    (edel eupd enew : InlineEntry) (mdel mupd : ChildObj)
    (hdel : pkLookup pk_map edel.fieldId = some mdel)
    (hdelmark : edel.markDelete = true)
    (hupd : pkLookup pk_map eupd.fieldId = some mupd)
    (hupdmark : eupd.markDelete = false)
    (hnew : pkLookup pk_map enew.fieldId = none) :
    inline_list_step pk_map st edel =
      { st with sessionDeleted := st.sessionDeleted ++ [mdel.oid] } ∧
    inline_list_step pk_map st eupd =
      (let m := (st.values.find? fun v => v.oid = mupd.oid).getD mupd
       { st with
         values := st.values.map fun v =>
           if v.oid = mupd.oid then
             { m with attrs := applyPayload m.attrs eupd.payload }
           else v,
         hooks := st.hooks ++ [(mupd.oid, false)] }) ∧
    inline_list_step pk_map st enew =
      { st with
        values := st.values ++ [⟨st.nextOid, "", applyPayload [] enew.payload⟩],
        hooks := st.hooks ++ [(st.nextOid, true)],
        nextOid := st.nextOid + 1 } ∧
    inline_list_populate_obj
        [⟨"1", false, [("t", FieldData.vstr ['A'])]⟩,
         ⟨"None", false, [("t", FieldData.vstr ['c'])]⟩,
         ⟨"2", true, []⟩]
        ⟨[⟨1, "1", [("t", FieldData.vstr ['a'])]⟩,
          ⟨2, "2", [("t", FieldData.vstr ['b'])]⟩], [], [], 10⟩ =
      ⟨[⟨1, "1", [("t", FieldData.vstr ['A'])]⟩,
        ⟨2, "2", [("t", FieldData.vstr ['b'])]⟩,
        ⟨10, "", [("t", FieldData.vstr ['c'])]⟩], [2],
        [(1, false), (10, true)], 11⟩ ∧
    liveChildren
        (inline_list_populate_obj
          [⟨"1", false, [("t", FieldData.vstr ['A'])]⟩,
           ⟨"None", false, [("t", FieldData.vstr ['c'])]⟩,
           ⟨"2", true, []⟩]
          ⟨[⟨1, "1", [("t", FieldData.vstr ['a'])]⟩,
            ⟨2, "2", [("t", FieldData.vstr ['b'])]⟩], [], [], 10⟩) =
      [⟨1, "1", [("t", FieldData.vstr ['A'])]⟩,
        ⟨10, "", [("t", FieldData.vstr ['c'])]⟩] := by
  refine ⟨?_, ?_, ?_, by decide, by decide⟩
  · simp [inline_list_step, hdel, hdelmark]
  · simp [inline_list_step, hupd, hupdmark]
  · simp [inline_list_step, hnew]

/-- Witness for C5: concrete snapshot `{A, B}` with a delete entry for `B`,
an update entry for `A` and a fresh entry. -/
theorem c5_inline_list_witness :
    inline_list_step
        [⟨1, "1", []⟩, ⟨2, "2", []⟩] ⟨[⟨1, "1", []⟩, ⟨2, "2", []⟩], [], [], 10⟩
        ⟨"2", true, []⟩ =
      { values := [⟨1, "1", []⟩, ⟨2, "2", []⟩], sessionDeleted := [2],
        hooks := [], nextOid := 10 } ∧
    inline_list_step
        [⟨1, "1", []⟩, ⟨2, "2", []⟩] ⟨[⟨1, "1", []⟩, ⟨2, "2", []⟩], [], [], 10⟩
        ⟨"1", false, [("t", FieldData.vbool true)]⟩ =
      (let m := (([⟨1, "1", []⟩, ⟨2, "2", []⟩] :
          List ChildObj).find? fun v => v.oid = 1).getD ⟨1, "1", []⟩
       { values := ([⟨1, "1", []⟩, ⟨2, "2", []⟩] : List ChildObj).map fun v =>
           if v.oid = 1 then
             { m with attrs := applyPayload m.attrs [("t", FieldData.vbool true)] }
           else v,
         sessionDeleted := [], hooks := [(1, false)], nextOid := 10 }) ∧
    inline_list_step
        [⟨1, "1", []⟩, ⟨2, "2", []⟩] ⟨[⟨1, "1", []⟩, ⟨2, "2", []⟩], [], [], 10⟩
        ⟨"None", false, []⟩ =
      { values := [⟨1, "1", []⟩, ⟨2, "2", []⟩, ⟨10, "", applyPayload [] []⟩],
        sessionDeleted := [], hooks := [(10, true)], nextOid := 11 } := by
  have h := c5_inline_list [⟨1, "1", []⟩, ⟨2, "2", []⟩]
    ⟨[⟨1, "1", []⟩, ⟨2, "2", []⟩], [], [], 10⟩
    ⟨"2", true, []⟩ ⟨"1", false, [("t", FieldData.vbool true)]⟩
    ⟨"None", false, []⟩ ⟨2, "2", []⟩ ⟨1, "1", []⟩
    (by decide) (by decide) (by decide) (by decide) (by decide)
  exact ⟨h.1, h.2.1, h.2.2.1⟩

/-! ## Theorems for claim C6 -/

/-- C6.  Failure policy of `create_model`: when the commit raises and the
host is **not** configured to re-raise integrity errors (i.e. unless the
exception is an `IntegrityError` and the re-raise flag is set), the call
rolls the unit of work back and returns the failure sentinel `False`, with
no partial writes left — the pending set is empty and the persisted rows
are exactly the ones from before the call.  When the exception is an
`IntegrityError` and the host sets the re-raise configuration, the original
exception propagates to the caller instead. -/
theorem c6_create_model_failure (cfg : Bool) (s : UnitOfWork) (m : Nat)
    (e : Exc) (hnr : ¬(e = Exc.integrity ∧ cfg = true)) :
    create_model cfg s m (some e) =
      (CreateOutcome.sentinelFalse, ⟨s.persisted, []⟩) ∧
    (∀ (s' : UnitOfWork) (m' : Nat),
      create_model true s' m' (some Exc.integrity) =
        (CreateOutcome.raised Exc.integrity, uow_add s' m')) := by
  constructor
  · cases e with
    | integrity =>
      have hcfg : cfg = false := by
        cases cfg
        · rfl
        · exact absurd ⟨rfl, rfl⟩ hnr
      subst hcfg
      simp [create_model, handle_view_exception, uow_add, uow_rollback]
    | other =>
      cases cfg <;>
        simp [create_model, handle_view_exception, uow_add, uow_rollback]
  · intro s' m'
    simp [create_model, handle_view_exception]

/-- Witness for C6: an integrity failure without the re-raise flag rolls
back to a clean session, and the same failure with the flag set
propagates. -/
theorem c6_create_model_failure_witness :
    create_model false ⟨[1], [9]⟩ 5 (some Exc.integrity) =
      (CreateOutcome.sentinelFalse, ⟨[1], []⟩) ∧
    create_model true ⟨[1], []⟩ 5 (some Exc.integrity) =
      (CreateOutcome.raised Exc.integrity, uow_add ⟨[1], []⟩ 5) :=
  ⟨(c6_create_model_failure false ⟨[1], [9]⟩ 5 Exc.integrity (by simp)).1,
   (c6_create_model_failure false ⟨[1], [9]⟩ 5 Exc.integrity (by simp)).2
      ⟨[1], []⟩ 5⟩

/-! ## Theorems for claim C7 -/

theorem delete_loop_succ_count (f : Nat → Bool) :
    ∀ rows : List Nat,
      (delete_loop f rows).1 = (rows.filter fun x => !f x).length := by
  intro rows
  induction rows with
  | nil => rfl
  | cons r rest ih =>
    by_cases hf : f r <;>
      simp [delete_loop, delete_model, hf, ih, Nat.add_comm]

theorem delete_loop_pre_count (f : Nat → Bool) (r : Nat) :
    ∀ rows : List Nat,
      (delete_loop f rows).2.count (Ev.preHook r) = rows.count r := by
  intro rows
  induction rows with
  | nil => rfl
  | cons x rest ih =>
    by_cases hx : x = r
    · subst hx
      by_cases hf : f x <;>
        simp [delete_loop, delete_model, hf, List.count_append,
          List.count_cons, ih]
    · by_cases hf : f x <;>
        simp [delete_loop, delete_model, hf, hx, List.count_append,
          List.count_cons, ih]

theorem delete_loop_post_count (f : Nat → Bool) (r : Nat) :
    ∀ rows : List Nat,
      (delete_loop f rows).2.count (Ev.postHook r) =
        (rows.filter fun x => x = r && !f x).length := by
  intro rows
  induction rows with
  | nil => rfl
  | cons x rest ih =>
    by_cases hx : x = r
    · subst hx
      by_cases hf : f x <;>
        simp [delete_loop, delete_model, hf, List.count_append,
          List.count_cons, ih]
    · by_cases hf : f x <;>
        simp [delete_loop, delete_model, hf, hx, List.count_append,
          List.count_cons, ih]

theorem delete_loop_no_bulk (f : Nat → Bool) (n : Nat) :
    ∀ rows : List Nat,
      (delete_loop f rows).2.count (Ev.bulkDelete n) = 0 := by
  intro rows
  induction rows with
  | nil => rfl
  | cons x rest ih =>
    by_cases hf : f x <;>
      simp [delete_loop, delete_model, hf, List.count_append,
        List.count_cons, ih]

/-- C7.  Bulk delete modes of `action_delete`: with `fast_mass_delete` the
whole action is one aggregate delete statement plus a commit — the count
equals the number of targeted rows and no single-row pre- or post-delete
hook ever fires.  Without it, every targeted row passes through the
single-row `delete_model` path, so the pre-delete hook fires once per
targeted row, the post-delete hook fires exactly once per successfully
deleted row, no aggregate delete statement is issued, and the reported
count equals the number of rows for which `delete_model` returned
success. -/
theorem c7_bulk_delete (commitFails : Nat → Bool) (rows : List Nat)
    (r n : Nat) :
    action_delete true commitFails rows =
      (rows.length, [Ev.bulkDelete rows.length, Ev.commitEv]) ∧
    (action_delete true commitFails rows).2.count (Ev.preHook r) = 0 ∧
    (action_delete true commitFails rows).2.count (Ev.postHook r) = 0 ∧
    (action_delete false commitFails rows).1 =
      (rows.filter fun x => !commitFails x).length ∧
    (action_delete false commitFails rows).2.count (Ev.preHook r) =
      rows.count r ∧
    (action_delete false commitFails rows).2.count (Ev.postHook r) =
      (rows.filter fun x => x = r && !commitFails x).length ∧
    (action_delete false commitFails rows).2.count (Ev.bulkDelete n) = 0 := by
  refine ⟨rfl, ?_, ?_, ?_, ?_, ?_, ?_⟩
  · simp [action_delete, List.count_cons]
  · simp [action_delete, List.count_cons]
  · simp [action_delete, delete_loop_succ_count]
  · simp [action_delete, List.count_append, List.count_cons,
      delete_loop_pre_count]
  · simp [action_delete, List.count_append, List.count_cons,
      delete_loop_post_count]
  · simp [action_delete, List.count_append, List.count_cons,
      delete_loop_no_bulk]

/-! ## Theorems for claim C8 -/

theorem listColumnChoice_key (cfg : ListConfig) (p : ModelProp) (x : String)
    (h : listColumnChoice cfg p = some x) : propKey p = x := by
  cases p with
  | rel k dir sr sb =>
    rw [listColumnChoice] at h
    split at h
    · simp only [propKey]
      exact Option.some.inj h
    · simp at h
  | col k c more =>
    rw [listColumnChoice] at h
    repeat' split at h
    all_goals first
      | (simp only [propKey]; exact Option.some.inj h)
      | simp at h

theorem nodup_key_eq {props : List ModelProp}
    (hnd : (props.map propKey).Nodup) {p q : ModelProp}
    (hp : p ∈ props) (hq : q ∈ props) (hk : propKey p = propKey q) :
    p = q := by
  induction props with
  | nil => simp at hp
  | cons a rest ih =>
    rw [List.map_cons, List.nodup_cons] at hnd
    rcases List.mem_cons.mp hp with rfl | hp'
    · rcases List.mem_cons.mp hq with rfl | hq'
      · rfl
      · exact absurd (hk ▸ List.mem_map_of_mem propKey hq') hnd.1
    · rcases List.mem_cons.mp hq with rfl | hq'
      · exact absurd (hk ▸ List.mem_map_of_mem propKey hp') hnd.1
      · exact ih hnd.2 hp' hq'

/-- C8 (amended).  `scaffold_list_columns` includes a relationship key in
the list-column set exactly when `column_display_all_relations` is set or
the relationship is many-to-one — so one-to-many and many-to-many
relations both require the opt-in flag; and `scaffold_auto_joins` consists
exactly of the displayed columns that name a many-to-one or many-to-many
relationship which is not self-referential and does not cross binds
(nothing when `column_auto_select_related` is off). -/
theorem c8_relation_columns (cfg : ListConfig) (props : List ModelProp)
    (k : String) (dir : Direction) (sr sb : Bool) (lc : List String)
    (x : String) (hnd : (props.map propKey).Nodup)
    (hmem : ModelProp.rel k dir sr sb ∈ props) :
    (k ∈ scaffold_list_columns cfg props ↔
      cfg.column_display_all_relations = true ∨ dir = Direction.manytoone) ∧
    (x ∈ scaffold_auto_joins cfg props lc ↔
      cfg.column_auto_select_related = true ∧ x ∈ lc ∧
        ∃ p ∈ props, autoJoinEligible p = some x) := by
  constructor
  · constructor
    · intro hk
      obtain ⟨p', hp', hc'⟩ := List.mem_filterMap.mp hk
      have hkey : propKey p' = k := listColumnChoice_key cfg p' k hc'
      have hpe : p' = ModelProp.rel k dir sr sb :=
        nodup_key_eq hnd hp' hmem (by rw [hkey]; rfl)
      subst hpe
      rw [listColumnChoice] at hc'
      split at hc'
      · next hcond => simpa using hcond
      · simp at hc'
    · intro hcond
      refine List.mem_filterMap.mpr ⟨ModelProp.rel k dir sr sb, hmem, ?_⟩
      rw [listColumnChoice]
      rw [if_pos (by simpa using hcond)]
  · rw [scaffold_auto_joins]
    cases hauto : cfg.column_auto_select_related with
    | false => simp [hauto]
    | true => simp [hauto, List.mem_filter, List.mem_filterMap]

/-- Witness for C8 at a concrete one-relationship model. -/
theorem c8_relation_columns_witness :
    ("author" ∈ scaffold_list_columns ⟨false, false, true⟩
        [ModelProp.rel "author" Direction.manytoone false true] ↔
      (⟨false, false, true⟩ : ListConfig).column_display_all_relations =
          true ∨ Direction.manytoone = Direction.manytoone) ∧
    ("author" ∈ scaffold_auto_joins ⟨false, false, true⟩
        [ModelProp.rel "author" Direction.manytoone false true] ["author"] ↔
      (⟨false, false, true⟩ : ListConfig).column_auto_select_related =
          true ∧ "author" ∈ ["author"] ∧
        ∃ p ∈ [ModelProp.rel "author" Direction.manytoone false true],
          autoJoinEligible p = some "author") :=
  c8_relation_columns ⟨false, false, true⟩
    [ModelProp.rel "author" Direction.manytoone false true]
    "author" Direction.manytoone false true ["author"] "author"
    (by decide) (by simp)

/-- Counterexample to C8 as stated: a many-to-many relationship is **not**
in the default list-column set — `scaffold_list_columns` keeps a
relationship key only when `column_display_all_relations` is set or the
direction is `MANYTOONE` (view.py 502), so the claim's "many-to-one and
many-to-many ... in the default list-column set" fails for a model with a
single many-to-many relation. -/
theorem c8_counterexample :
    scaffold_list_columns ⟨false, false, true⟩
        [ModelProp.rel "tags" Direction.manytomany false true] = [] ∧
    "tags" ∉ scaffold_list_columns ⟨false, false, true⟩
        [ModelProp.rel "tags" Direction.manytomany false true] := by
  constructor
  · rfl
  · intro h
    simp [scaffold_list_columns, listColumnChoice] at h

/-! ## Theorems for claim C10 -/

theorem qsm_loop_spec :
    ∀ (ol : List (String × Nat)) (fd : List String), fd.Nodup →
      (ol.map Prod.fst).Nodup →
      qsm_loop fd ol =
        (fd.filter fun v => decide (v ∉ ol.map Prod.fst),
          (ol.filter fun p => decide (p.1 ∈ fd)).map Prod.snd) := by
  intro ol
  induction ol with
  | nil =>
    intro fd _ _
    simp [qsm_loop]
  | cons p rest ih =>
    intro fd hfd hpk
    obtain ⟨pk, obj⟩ := p
    rw [List.map_cons, List.nodup_cons] at hpk
    by_cases hemp : fd.isEmpty
    · have hfde : fd = [] := List.isEmpty_iff.mp hemp
      subst hfde
      simp [qsm_loop]
    · rw [qsm_loop, if_neg (by simpa using hemp)]
      by_cases hmem : pk ∈ fd
      · rw [if_pos hmem, ih (fd.erase pk) (hfd.erase pk) hpk.2]
        have hrest : ∀ q ∈ rest, (q : String × Nat).1 ≠ pk := by
          intro q hq hqe
          exact hpk.1 (List.mem_map.mpr ⟨q, hq, hqe⟩)
        rw [Prod.ext_iff]
        dsimp only
        constructor
        · rw [List.Nodup.erase_eq_filter hfd, List.filter_filter]
          refine List.filter_congr fun v _ => ?_
          by_cases hv : v = pk <;> simp [hv, Bool.and_comm, bne]
        · rw [List.filter_cons_of_pos (by simpa using hmem), List.map_cons]
          congr 1
          refine congrArg _ (List.filter_congr fun q hq => ?_)
          simp [List.mem_erase_of_ne (hrest q hq)]
      · rw [if_neg hmem, ih fd hfd hpk.2]
        rw [Prod.ext_iff]
        dsimp only
        constructor
        · refine List.filter_congr fun v hv => ?_
          have hv' : v ≠ pk := fun he => hmem (he ▸ hv)
          simp [hv']
        · rw [List.filter_cons_of_neg (by simpa using hmem)]

/-- C10.  `QuerySelectMultipleField`: after submission, `data` contains
exactly the query objects whose primary-key string appears among the
submitted values, in query order (the empty list when none match); and
whenever some submitted value matches no object of the query, the
`_invalid_formdata` flag is set — exactly then — and `pre_validate` raises
a validation error rather than silently dropping the value.  (As the
field's documentation assumes, primary-key strings are distinct, and the
submitted formdata is a Python set, hence duplicate-free.) -/
theorem c10_select_multiple (f : QSMField) (d o : List Nat)
    (hfd : f.formdata.Nodup) (hpk : (f.objectList.map Prod.fst).Nodup) :
    (qsm_get_data f).1 =
      (f.objectList.filter fun p => decide (p.1 ∈ f.formdata)).map
        Prod.snd ∧
    ((qsm_get_data f).2 = true ↔
      ∃ v ∈ f.formdata, v ∉ f.objectList.map Prod.fst) ∧
    ((qsm_get_data f).2 = true →
      qsm_pre_validate (qsm_get_data f).2 d o = true) := by
  have hspec := qsm_loop_spec f.objectList f.formdata hfd hpk
  refine ⟨?_, ?_, ?_⟩
  · simp [qsm_get_data, hspec]
  · have h2 : (qsm_get_data f).2 =
        !(f.formdata.filter fun v =>
            decide (v ∉ f.objectList.map Prod.fst)).isEmpty := by
      simp [qsm_get_data, hspec]
    rw [h2]
    simp [List.isEmpty_iff, List.filter_eq_nil_iff]
  · intro h
    simp [qsm_pre_validate, h]

/-- Witness for C10: objects `{"1" ↦ 11, "2" ↦ 22}` with submitted values
`{"2", "9"}` — `data = [22]`, the stray `"9"` flags the form data invalid,
and `pre_validate` raises. -/
theorem c10_select_multiple_witness :
    (qsm_get_data ⟨[("1", 11), ("2", 22)], ["2", "9"]⟩).1 =
      (([("1", 11), ("2", 22)] : List (String × Nat)).filter fun p =>
        decide (p.1 ∈ (["2", "9"] : List String))).map Prod.snd ∧
    ((qsm_get_data ⟨[("1", 11), ("2", 22)], ["2", "9"]⟩).2 = true ↔
      ∃ v ∈ (["2", "9"] : List String),
        v ∉ ([("1", 11), ("2", 22)] : List (String × Nat)).map Prod.fst) ∧
    ((qsm_get_data ⟨[("1", 11), ("2", 22)], ["2", "9"]⟩).2 = true →
      qsm_pre_validate (qsm_get_data ⟨[("1", 11), ("2", 22)], ["2", "9"]⟩).2
        [22] [11, 22] = true) :=
  c10_select_multiple ⟨[("1", 11), ("2", 22)], ["2", "9"]⟩ [22] [11, 22]
    (by decide) (by decide)

end FlaskAdmin
